import Mathlib

/-!
Verification development for the ensemble probabilistic dynamics model and
multi-step trajectory rollout engine of `rlutils` (`rlutils/tf/nn/models.py`).

Tensors are embedded as (nested) lists of rationals: a rank-2 tensor of shape
`(n, d)` is a `List (List ℚ)` with `n` rows of width `d`.  Randomness
(`tf.random.uniform`, `distribution.sample()`) is threaded explicitly as
integer streams, so that stochastic code becomes a deterministic function of
the stream.  Python attribute lookup (which can raise `AttributeError`) is
embedded as an `Except` computation over the set of attribute names assigned
by a constructor.
-/

namespace Rlutils

/-- Split a flat list into `n` consecutive chunks of size `p`
(the embedding of `tf.reshape` from `(n*p, …)` to `(n, p, …)`). -/
def chunks (n p : ℕ) (l : List α) : List (List α) :=
  match n with
  | 0 => []
  | n + 1 => l.take p :: chunks n p (l.drop p)

/-- Elementwise sum of the rows of a matrix whose rows have width `w`
(the embedding of `tf.reduce_sum(m, axis=0)`). -/
def sumAxis0 [Zero α] [Add α] (w : ℕ) (m : List (List α)) : List α :=
  m.foldr (fun r acc => List.zipWith (· + ·) r acc) (List.replicate w 0)

/-- Arithmetic mean of a list of rationals
(the embedding of `tf.reduce_mean(v, axis=0)` for a vector `v`). -/
def meanQ (v : List ℚ) : ℚ := v.sum / v.length

/-- Modelled from the spec: `StandardScaler` (the Normalizer) lives in
`rlutils/tf/preprocessing.py`, which is not part of the sources at hand.
Per the spec it stores a per-feature `mean` and `std`, the `std` floored at a
small epsilon by `adapt`. -/
structure StandardScaler where
  mean : List ℚ
  std : List ℚ

namespace StandardScaler

/-- Modelled from the spec: `call(x) = (x - mean) / std`, per feature. -/
def call (s : StandardScaler) (x : List ℚ) : List ℚ :=
  List.zipWith (fun p sd => (p.1 - p.2) / sd) (x.zip s.mean) s.std

/-- Modelled from the spec: `inverse_call(y) = y * std + mean`, per feature. -/
def inverseCall (s : StandardScaler) (y : List ℚ) : List ℚ :=
  List.zipWith (fun p m => p.1 * p.2 + m) (y.zip s.std) s.mean

/-- Modelled from the spec: `adapt` floors the computed standard deviation at
`eps` before storing it.  The raw per-feature standard deviation is taken as
given (it is a nonnegative moment of the data); flooring is `max`. -/
def floorStd (eps : ℚ) (rawStd : List ℚ) : List ℚ :=
  rawStd.map (fun v => max v eps)

end StandardScaler

/-- Modelled from the spec: the reward Normalizer is a `StandardScaler` built
with `input_shape=[None]`, i.e. scalar per sample; `call`/`inverse_call` are
the same affine maps on scalars. -/
structure ScalarStandardScaler where
  mean : ℚ
  std : ℚ

namespace ScalarStandardScaler

/-- Scalar variant of `call(x) = (x - mean) / std`. -/
def call (s : ScalarStandardScaler) (x : ℚ) : ℚ := (x - s.mean) / s.std

/-- Scalar variant of `inverse_call(y) = y * std + mean`. -/
def inverseCall (s : ScalarStandardScaler) (y : ℚ) : ℚ := y * s.std + s.mean

end ScalarStandardScaler

/-- Embedding of `DynamicsModelRNNCell.__init__` (models.py lines 19-34): the
per-step rollout state machine.  `model` embeds the bound probabilistic model
composed with one `.sample()` draw: `model k t row` is the sample that
ensemble member `k` produces at step `t` on input `row` (the step index `t`
stands for the fresh sampling noise consumed at that step). -/
structure DynamicsModelRNNCell where
  model : ℕ → ℕ → List ℚ → List ℚ
  rewardFn : Option (List ℚ → List ℚ → List ℚ → ℚ)
  terminateFn : Option (List ℚ → List ℚ → List ℚ → Bool)
  obsNormalizer : StandardScaler
  actNormalizer : StandardScaler
  deltaObsNormalizer : StandardScaler
  rewNormalizer : ScalarStandardScaler
  numParticles : ℕ
  numEnsembles : ℕ
  obsDim : ℕ
  actDim : ℕ
  policy : Option (List ℚ → List ℚ)

namespace DynamicsModelRNNCell

/-- Embedding of `sample_bootstrap` (models.py lines 44-47): at step `t` it
draws `num_particles * batch_size` fresh indices, each uniform in
`[0, num_ensembles)`; `brng t i % K` embeds the `i`-th draw of
`tf.random.uniform(shape=(P*B,), maxval=K)` at that step.  The source stacks
each draw with `tf.range` so `gather_nd` pairs draw `i` with row `i`; here the
pairing is positional. -/
def sampleBootstrap (c : DynamicsModelRNNCell) (brng : ℕ → ℕ → ℕ)
    (t batchSize : ℕ) : List ℕ :=
  (List.range (c.numParticles * batchSize)).map (fun i => brng t i % c.numEnsembles)

/-- Embedding of models.py lines 54-58: the per-particle action, before
normalization — either the teacher-forced external action tiled over the
particle axis (`tf.tile` + reshape, so row `b*P + p` gets action `b`), or the
supplied policy applied row-wise to the flattened particle states. -/
def currentActionRaw (c : DynamicsModelRNNCell) (inputs stFlat : List (List ℚ)) :
    List (List ℚ) :=
  match c.policy with
  | none => inputs.flatMap (fun a => List.replicate c.numParticles a)
  | some p => stFlat.map p

/-- Embedding of models.py lines 64-70: query the model (one sample per
ensemble member per row), then `gather_nd` with the bootstrap indices, so row
`i` of the result is the sample of member `bootstrapIdx i` on row `i`. -/
def selectSamples (c : DynamicsModelRNNCell) (brng : ℕ → ℕ → ℕ)
    (t batchSize : ℕ) (modelInputs : List (List ℚ)) : List (List ℚ) :=
  let sampled := modelInputs.map
    (fun row => (List.range c.numEnsembles).map (fun k => c.model k t row))
  List.zipWith (fun samples i => samples.getD i []) sampled
    (c.sampleBootstrap brng t batchSize)

/-- One rollout step's emitted output: next particle states `(B, P, obs_dim)`,
rewards `(B, P)` and done flags `(B, P)`.  The source concatenates the three
along the last axis into a `(B, P, obs_dim + 2)` tensor that `build_ts_model`
slices apart again; the triple is that sliced form. -/
abbrev StepOutput :=
  List (List (List ℚ)) × List (List ℚ) × List (List Bool)

/-- Embedding of models.py lines 72-82: split the gathered sample according to
the reward branch.  With no `reward_fn` (lines 72-77) the sample's last entry
is read as the normalized fused reward (denormalized by the reward Normalizer)
and the rest as the normalized delta-state; with a `reward_fn` (lines 78-82)
the whole sample is the normalized delta-state and the reward is
`reward_fn(states, current_action, next_states)` — where `current_action` was
reassigned to its normalized value at line 60, so the analytic reward function
receives the normalized action.  Either way
`next_states = delta_state + states`. -/
def nextAndReward (c : DynamicsModelRNNCell)
    (output stFlat currentAction : List (List ℚ)) :
    List (List ℚ) × List ℚ :=
  match c.rewardFn with
  | none =>
    let deltaStateNorm := output.map List.dropLast
    let rewardNorm := output.map (fun r => r.getLastD 0)
    let deltaState := deltaStateNorm.map c.deltaObsNormalizer.inverseCall
    let reward := rewardNorm.map c.rewNormalizer.inverseCall
    let nextStates := List.zipWith (fun d s => List.zipWith (· + ·) d s) deltaState stFlat
    (nextStates, reward)
  | some f =>
    let deltaState := output.map c.deltaObsNormalizer.inverseCall
    let nextStates := List.zipWith (fun d s => List.zipWith (· + ·) d s) deltaState stFlat
    let reward := List.zipWith3 f stFlat currentAction nextStates
    (nextStates, reward)

/-- Embedding of models.py lines 84-88: the done flag is
`terminate_fn(states, current_action, next_states)` when a termination oracle
was supplied (with `current_action` again the normalized action), else
`tf.zeros`, i.e. false for every particle of every batch element. -/
def doneFlags (c : DynamicsModelRNNCell) (batchSize : ℕ)
    (stFlat currentAction nextStates : List (List ℚ)) : List Bool :=
  match c.terminateFn with
  | none => List.replicate (batchSize * c.numParticles) false
  | some g => List.zipWith3 g stFlat currentAction nextStates

/-- Embedding of `DynamicsModelRNNCell.call` (models.py lines 49-94).  The
carried state is the `(B, P, obs_dim)` particle-state tensor; it is flattened
to `(B*P, obs_dim)` (line 52), the action is tiled or produced by the policy
(54-58) and normalized together with the state (60-61), the model is sampled
and one bootstrap member gathered per row (64-70), the sample is split and
denormalized per the reward branch (72-82), the done flag computed (84-88) and
the pieces reshaped back to `(B, P, ...)` (86, 90-91).  The returned recurrent
state is the emitted next-state tensor (line 94). -/
def call (c : DynamicsModelRNNCell) (brng : ℕ → ℕ → ℕ) (t : ℕ)
    (inputs : List (List ℚ)) (states : List (List (List ℚ))) :
    StepOutput × List (List (List ℚ)) :=
  let batchSize := states.length
  let stFlat := states.flatten
  let currentAction := (c.currentActionRaw inputs stFlat).map c.actNormalizer.call
  let stateNorm := stFlat.map c.obsNormalizer.call
  let modelInputs := List.zipWith (· ++ ·) stateNorm currentAction
  let output := c.selectSamples brng t batchSize modelInputs
  let nextRew := c.nextAndReward output stFlat currentAction
  let done := c.doneFlags batchSize stFlat currentAction nextRew.1
  let nextStatesR := chunks batchSize c.numParticles nextRew.1
  ((nextStatesR, chunks batchSize c.numParticles nextRew.2,
    chunks batchSize c.numParticles done), nextStatesR)

/-- The sample width the cell's `call` requires of the bound model: with no
`reward_fn` the split at models.py lines 72-77 consumes a fused
`obs_dim + 1`-wide sample (delta-state plus one reward entry); with a
`reward_fn` the whole sample is the `obs_dim`-wide delta-state. -/
def intendedModelWidth (c : DynamicsModelRNNCell) : ℕ :=
  match c.rewardFn with
  | none => c.obsDim + 1
  | some _ => c.obsDim

end DynamicsModelRNNCell

/-- Modelled from the spec: the rollout engine built by the facade wraps the
cell in `tf.keras.layers.RNN(cell, return_sequences=True, unroll=True)` and
"iterates the Step Machine for a fixed horizon", stacking per-step outputs
along a new time axis with no early exit.  `actions` is the teacher-forced
action sequence in time-major order (step `j` consumes the `(B, act_dim)`
action batch `actions[j]`); the horizon is `actions.length`. -/
def rolloutRun (c : DynamicsModelRNNCell) (brng : ℕ → ℕ → ℕ) :
    ℕ → List (List (List ℚ)) → List (List (List ℚ)) →
    List DynamicsModelRNNCell.StepOutput
  | _, [], _ => []
  | t, a :: rest, st =>
    let r := c.call brng t a st
    r.1 :: rolloutRun c brng (t + 1) rest r.2

/-- Embedding of Python instance-attribute lookup: reading attribute `name` on
an object whose assigned instance-attribute names are `attrs` succeeds iff the
name was assigned, and raises `AttributeError` otherwise. -/
def getattrE (attrs : List String) (name : String) : Except String Unit :=
  if name ∈ attrs then Except.ok () else Except.error "AttributeError"

/-- Perform a sequence of attribute reads in order; the first missing
attribute raises. -/
def readAttrs (attrs : List String) : List String → Except String Unit
  | [] => Except.ok ()
  | n :: rest => do
    getattrE attrs n
    readAttrs attrs rest

/-- Embedding of `EnsembleWorldModel.__init__` (models.py lines 257-275): the
instance-attribute names it assigns on `self`, in order.  `hasRewardFn` says
whether a `reward_fn` was supplied; `rew_normalizer` and `rew_model` are
assigned only when it was not (lines 272-275).  Neither `model` nor
`num_ensembles` is ever assigned: the dynamics network is stored only as
`dynamics_model`, and `num_ensembles` is forwarded to its constructor without
being kept on the facade. -/
def ensembleWorldModelAttrs (hasRewardFn : Bool) : List String :=
  ["obs_dim", "act_dim", "logger", "dynamics_model", "obs_normalizer",
    "action_normalizer", "delta_obs_normalizer", "reward_fn", "terminate_fn"] ++
  (if hasRewardFn then [] else ["rew_normalizer", "rew_model"])

/-- The `self.`-instance-attribute reads performed by
`EnsembleWorldModel.build_ts_model` (models.py lines 320-343) in source
evaluation order: the keyword arguments of the `DynamicsModelRNNCell` call are
evaluated left to right (lines 322-326), starting with `self.model`. -/
def buildTsModelAttrReads : List String :=
  ["model", "reward_fn", "terminate_fn", "obs_normalizer", "action_normalizer",
    "delta_obs_normalizer", "rew_normalizer", "num_ensembles", "obs_dim", "act_dim"]

/-- Embedding of the attribute-access behavior of
`EnsembleWorldModel.build_ts_model`: it performs the reads of
`buildTsModelAttrReads` against the attributes assigned by the constructor.
Its `horizon`, `num_particles` and `policy` parameters do not influence which
attributes are read, so they are irrelevant to whether the reads succeed. -/
def buildTsModelE (hasRewardFn : Bool) : Except String Unit :=
  readAttrs (ensembleWorldModelAttrs hasRewardFn) buildTsModelAttrReads

/-- The `self.`-instance-attribute reads performed by
`EnsembleWorldModel.update` on a valid dataset (models.py lines 295-318), in
source evaluation order, including those of the `set_statistics` call at line
304 (lines 288-293, where `rew_normalizer` is read only when `reward_fn` is
`None`).  The update body then reads `rew_normalizer` (line 311) and
`rew_model` (line 316) unconditionally. -/
def updateAttrReads (hasRewardFn : Bool) : List String :=
  ["obs_normalizer", "action_normalizer", "delta_obs_normalizer", "reward_fn"] ++
  (if hasRewardFn then [] else ["rew_normalizer"]) ++
  ["delta_obs_normalizer", "obs_normalizer", "action_normalizer", "obs_normalizer",
    "rew_normalizer", "dynamics_model", "rew_model"]

/-- Embedding of the attribute-access behavior of `EnsembleWorldModel.update`:
the reads of `updateAttrReads` against the attributes assigned by the
constructor. -/
def ensembleWorldModelUpdateE (hasRewardFn : Bool) : Except String Unit :=
  readAttrs (ensembleWorldModelAttrs hasRewardFn) (updateAttrReads hasRewardFn)

/-- Elementwise mean of the rows of a matrix whose rows have width `w`
(the embedding of `tf.reduce_mean(m, axis=0)` for a rank-2 tensor). -/
def meanAxis0 (w : ℕ) (m : List (List ℚ)) : List ℚ :=
  (sumAxis0 w m).map (fun v => v / (m.length : ℚ))

/-- Embedding of the semantic state of `EnsembleWorldModel` (models.py lines
257-275) as used by its `call`/`predict_on_batch_tf` path.
`dynamicsMean k row` embeds member `k`'s row of
`self.dynamics_model.model(inputs).mean()`; `dynamicsSample k noise row`
embeds member `k`'s row of `.sample()`, with `noise` standing for the fresh
sampling randomness; `rewModelCall row` embeds the squeezed scalar output of
`self.rew_model.model(row)`. -/
structure EnsembleWorldModel where
  obsDim : ℕ
  actDim : ℕ
  numEnsembles : ℕ
  dynamicsMean : ℕ → List ℚ → List ℚ
  dynamicsSample : ℕ → ℕ → List ℚ → List ℚ
  rewModelCall : List ℚ → ℚ
  obsNormalizer : StandardScaler
  actionNormalizer : StandardScaler
  deltaObsNormalizer : StandardScaler
  rewNormalizer : ScalarStandardScaler
  rewardFn : Option (List ℚ → List ℚ → List ℚ → ℚ)
  terminateFn : Option (List ℚ → List ℚ → List ℚ → Bool)

namespace EnsembleWorldModel

/-- Embedding of `EnsembleWorldModel.call` (models.py lines 345-389): the
single-step prediction.  State and action are normalized and concatenated
(355-357); with `sample=True` (360-366) the ensemble output is sampled and a
fresh bootstrap index in `[0, K)` is drawn per batch row (the stream `rng`
supplies the sampling noise at coordinates `< batch` and the bootstrap draws
at coordinates `batch + i`); with `sample=False` (367-368) the output is
`tf.reduce_mean(output.mean(), axis=0)`, the ensemble mean of the member
means, with no random draw.  The delta is denormalized and added to the state
(370-372), the reward comes from the reward model plus reward-normalizer round
trip or from `reward_fn(state, action, next_state)` with the raw action
(375-381), and the done flags from `terminate_fn` or `tf.zeros` (383-387). -/
def call (wm : EnsembleWorldModel) (rng : ℕ → ℕ) (state action : List (List ℚ))
    (sample : Bool) : List (List ℚ) × List ℚ × List Bool :=
  let batchSize := state.length
  let normState := state.map wm.obsNormalizer.call
  let normAction := action.map wm.actionNormalizer.call
  let inputs := List.zipWith (· ++ ·) normState normAction
  let output :=
    if sample then
      let sampled := inputs.enum.map (fun p =>
        (List.range wm.numEnsembles).map (fun k => wm.dynamicsSample k (rng p.1) p.2))
      let bootstrapIdx := (List.range batchSize).map
        (fun i => rng (batchSize + i) % wm.numEnsembles)
      List.zipWith (fun samples i => samples.getD i []) sampled bootstrapIdx
    else
      inputs.map (fun row =>
        meanAxis0 wm.obsDim ((List.range wm.numEnsembles).map (fun k => wm.dynamicsMean k row)))
  let deltaState := output.map wm.deltaObsNormalizer.inverseCall
  let nextState := List.zipWith (fun d s => List.zipWith (· + ·) d s) deltaState state
  let normNextObs := nextState.map wm.obsNormalizer.call
  let reward :=
    match wm.rewardFn with
    | none =>
      let rewInputs := List.zipWith3 (fun a b cc => a ++ b ++ cc) normState normAction normNextObs
      let normReward := rewInputs.map wm.rewModelCall
      normReward.map wm.rewNormalizer.inverseCall
    | some f => List.zipWith3 f state action nextState
  let dones :=
    match wm.terminateFn with
    | none => List.replicate batchSize false
    | some g => List.zipWith3 g state action nextState
  (nextState, reward, dones)

/-- Embedding of `EnsembleWorldModel.predict_on_batch_tf` (models.py lines
391-399): a `tf.function` wrapper that invokes the model with
`training=False`. -/
def predictOnBatchTf (wm : EnsembleWorldModel) (rng : ℕ → ℕ)
    (state action : List (List ℚ)) (sample : Bool) :
    List (List ℚ) × List ℚ × List Bool :=
  wm.call rng state action sample

end EnsembleWorldModel

/-- Modelled from the spec: `make_independent_normal_from_params` (from
`rlutils.tf.distributions`, not among the sources) turns a parameter vector of
even width `2d` into an independent diagonal Gaussian over `d` dimensions, so
the event (sample) width is half the parameter width. -/
def independentNormalEventDim (paramDim : ℕ) : ℕ := paramDim / 2

/-- Embedding of `EnsembleDynamicsModel.build_computation_graph` (models.py
lines 189-202): `output_dim = self.obs_dim * 2` parameters per member, turned
into a diagonal Gaussian whose sample width is therefore exactly `obs_dim`.
The reward is never fused into this output vector. -/
def dynamicsModelSampleWidth (obsDim : ℕ) : ℕ :=
  independentNormalEventDim (obsDim * 2)

/-- Negative log density of a scalar Gaussian with mean `mu` and scale
`sigma` at `x`. -/
noncomputable def gaussNLL (mu sigma x : ℝ) : ℝ :=
  (x - mu) ^ 2 / (2 * sigma ^ 2) + Real.log sigma + Real.log (2 * Real.pi) / 2

/-- Modelled from the spec: the diagonal Gaussian's `log_prob` is the sum of
the per-dimension log densities, so `-log_prob` is the per-dimension NLL
summed over output dimensions. -/
noncomputable def diagGaussNLL (mus sigmas xs : List ℝ) : ℝ :=
  (List.zipWith3 gaussNLL mus sigmas xs).sum

/-- Modelled from the spec: `expand_ensemble_dim` (from
`rlutils.tf.functional`, not among the sources) tiles a tensor along a new
leading ensemble axis of size `k`, so all members receive the same data. -/
def expandEnsembleDim (k : ℕ) (ys : List α) : List (List α) :=
  List.replicate k ys

/-- Embedding of the NLL tensor of `EnsembleDynamicsModel.train_step`
(models.py lines 204-215): entry `(k, b)` holds `-log_prob` of ensemble
member `k` at minibatch element `b`.  The inputs are tiled over the ensemble
axis inside the model graph (line 195) and the targets by
`expand_ensemble_dim` (line 210), so member `k` is evaluated on the `k`-th
copies.  `params k x` gives member `k`'s predicted (means, scales) on input
row `x`. -/
noncomputable def dynamicsNllMatrix (k : ℕ)
    (params : ℕ → List ℝ → List ℝ × List ℝ) (xs ys : List (List ℝ)) :
    List (List ℝ) :=
  List.zipWith3
    (fun i bx tgt =>
      List.zipWith (fun x y => diagGaussNLL (params i x).1 (params i x).2 y) bx tgt)
    (List.range k) (List.replicate k xs) (expandEnsembleDim k ys)

/-- Arithmetic mean of a list of reals
(the embedding of `tf.reduce_mean(v, axis=0)` for a vector `v`). -/
noncomputable def meanR (v : List ℝ) : ℝ := v.sum / v.length

/-- Embedding of the quantity handed to `minimize` in
`EnsembleDynamicsModel.train_step` (models.py lines 211-218): the NLL tensor
reduced by `tf.reduce_sum(nll, axis=0)` over the leading (ensemble) axis and
then `tf.reduce_mean(nll, axis=0)` over the batch axis. -/
noncomputable def dynamicsTrainLoss (k : ℕ)
    (params : ℕ → List ℝ → List ℝ × List ℝ) (xs ys : List (List ℝ)) : ℝ :=
  meanR (sumAxis0 (min xs.length ys.length) (dynamicsNllMatrix k params xs ys))

/-- Embedding of the scalar reported to the logger by `train_step`
(models.py line 221): the minimized loss divided by `num_ensembles` and by
`obs_dim` — a division that happens only after `minimize` was called. -/
noncomputable def dynamicsTrainLossLogged (k obsDim : ℕ)
    (params : ℕ → List ℝ → List ℝ × List ℝ) (xs ys : List (List ℝ)) : ℝ :=
  dynamicsTrainLoss k params xs ys / (k : ℝ) / (obsDim : ℝ)

/-- The loss the specification sentence describes, written from its words for
comparison with `dynamicsTrainLoss`: the dim-summed NLL averaged over both
the ensemble axis and the batch axis. -/
noncomputable def specDynamicsLoss (k : ℕ)
    (params : ℕ → List ℝ → List ℝ × List ℝ) (xs ys : List (List ℝ)) : ℝ :=
  meanR ((sumAxis0 (min xs.length ys.length) (dynamicsNllMatrix k params xs ys)).map
    (fun v => v / (k : ℝ)))

/-- A constant-zero random stream, used to evaluate the stochastic
definitions on concrete inputs. -/
def zeroStream : ℕ → ℕ → ℕ := fun _ _ => 0

/-- The analytic reward function of the concrete example cell below: it
returns the first component of the action it is handed. -/
def exampleRewardFn : List ℚ → List ℚ → List ℚ → ℚ := fun _ a _ => a.getD 0 0

/-- A concrete cell in the analytic-reward configuration: obs_dim 1, act_dim
1, one particle, two ensemble members whose samples are the zero delta, an
identity observation/delta normalizer and an action normalizer with mean 1
and std 2. -/
def exampleCellRewardFn : DynamicsModelRNNCell :=
  { model := fun _ _ _ => [0]
    rewardFn := some exampleRewardFn
    terminateFn := none
    obsNormalizer := ⟨[0], [1]⟩
    actNormalizer := ⟨[1], [2]⟩
    deltaObsNormalizer := ⟨[0], [1]⟩
    rewNormalizer := ⟨0, 1⟩
    numParticles := 1
    numEnsembles := 2
    obsDim := 1
    actDim := 1
    policy := none }

/-- A concrete cell in the learned-reward configuration (`reward_fn = None`)
whose bound model has the facade's dynamics sample width `obs_dim` (= 3):
the combination `build_ts_model` would assemble. -/
def exampleCellNoRewardFn : DynamicsModelRNNCell :=
  { model := fun _ _ _ => [1, 2, 3]
    rewardFn := none
    terminateFn := none
    obsNormalizer := ⟨[0, 0, 0], [1, 1, 1]⟩
    actNormalizer := ⟨[0], [1]⟩
    deltaObsNormalizer := ⟨[0, 0, 0], [1, 1, 1]⟩
    rewNormalizer := ⟨0, 1⟩
    numParticles := 1
    numEnsembles := 2
    obsDim := 3
    actDim := 1
    policy := none }

/-- Shape predicate: `m` is an `a × b` matrix. -/
def MatShape (m : List (List α)) (a b : ℕ) : Prop :=
  m.length = a ∧ ∀ r ∈ m, r.length = b

/-- Shape predicate: `m` is an `a × b × c` tensor. -/
def Mat3Shape (m : List (List (List α))) (a b c : ℕ) : Prop :=
  m.length = a ∧ ∀ y ∈ m, y.length = b ∧ ∀ z ∈ y, z.length = c

/-- Dimension of a `StandardScaler`'s statistics. -/
def ScalerDim (s : StandardScaler) (d : ℕ) : Prop :=
  s.mean.length = d ∧ s.std.length = d

instance (m : List (List α)) (a b : ℕ) : Decidable (MatShape m a b) := by
  unfold MatShape; infer_instance

instance (m : List (List (List α))) (a b c : ℕ) : Decidable (Mat3Shape m a b c) := by
  unfold Mat3Shape; infer_instance

instance (s : StandardScaler) (d : ℕ) : Decidable (ScalerDim s d) := by
  unfold ScalerDim; infer_instance

theorem zipWith_roundtrip (x m sd : List ℚ)
    (hxm : x.length = m.length) (hmsd : m.length = sd.length)
    (hsd : ∀ v ∈ sd, v ≠ 0) :
    StandardScaler.inverseCall ⟨m, sd⟩ (StandardScaler.call ⟨m, sd⟩ x) = x := by
  induction x generalizing m sd with
  | nil => simp [StandardScaler.call, StandardScaler.inverseCall]
  | cons a x ih =>
    cases m with
    | nil => simp at hxm
    | cons b m =>
      cases sd with
      | nil => simp at hmsd
      | cons c sd =>
        have hc : c ≠ 0 := hsd c (by simp)
        simp only [List.length_cons] at hxm hmsd
        simp only [StandardScaler.call, StandardScaler.inverseCall, List.zip_cons_cons,
          List.zipWith_cons_cons]
        rw [List.cons_eq_cons]
        constructor
        · field_simp
        · exact ih m sd (by omega) (by omega) (fun v hv => hsd v (List.mem_cons_of_mem _ hv))

theorem floorStd_pos (eps : ℚ) (heps : 0 < eps) (rawStd : List ℚ) :
    ∀ v ∈ StandardScaler.floorStd eps rawStd, 0 < v := by
  intro v hv
  simp only [StandardScaler.floorStd, List.mem_map] at hv
  obtain ⟨w, _, rfl⟩ := hv
  exact lt_of_lt_of_le heps (le_max_right w eps)

theorem length_scaler_call (s : StandardScaler) (x : List ℚ) :
    (s.call x).length = min (min x.length s.mean.length) s.std.length := by
  simp [StandardScaler.call, List.length_zipWith, List.length_zip]

theorem length_scaler_inverseCall (s : StandardScaler) (y : List ℚ) :
    (s.inverseCall y).length = min (min y.length s.std.length) s.mean.length := by
  simp [StandardScaler.inverseCall, List.length_zipWith, List.length_zip]

theorem scaler_call_length (s : StandardScaler) (d : ℕ) (hs : ScalerDim s d)
    (x : List ℚ) (hx : x.length = d) : (s.call x).length = d := by
  rw [length_scaler_call, hx, hs.1, hs.2]
  omega

theorem exists_of_mem_zipWith {f : α → β → γ} :
    ∀ {l₁ : List α} {l₂ : List β} {z : γ}, z ∈ List.zipWith f l₁ l₂ →
      ∃ a ∈ l₁, ∃ b ∈ l₂, z = f a b := by
  intro l₁
  induction l₁ with
  | nil => intro l₂ z hz; simp at hz
  | cons a l₁ ih =>
    intro l₂ z hz
    cases l₂ with
    | nil => simp at hz
    | cons b l₂ =>
      simp only [List.zipWith_cons_cons, List.mem_cons] at hz
      rcases hz with rfl | hz
      · exact ⟨a, by simp, b, by simp, rfl⟩
      · obtain ⟨x, hx, y, hy, rfl⟩ := ih hz
        exact ⟨x, by simp [hx], y, by simp [hy], rfl⟩

theorem exists_of_mem_zipWith3 {f : α → β → γ → δ} :
    ∀ {l₁ : List α} {l₂ : List β} {l₃ : List γ} {z : δ},
      z ∈ List.zipWith3 f l₁ l₂ l₃ → ∃ a ∈ l₁, ∃ b ∈ l₂, ∃ cc ∈ l₃, z = f a b cc := by
  intro l₁
  induction l₁ with
  | nil => intro l₂ l₃ z hz; simp [List.zipWith3] at hz
  | cons a l₁ ih =>
    intro l₂ l₃ z hz
    cases l₂ with
    | nil => simp [List.zipWith3] at hz
    | cons b l₂ =>
      cases l₃ with
      | nil => simp [List.zipWith3] at hz
      | cons cc l₃ =>
        simp only [List.zipWith3, List.mem_cons] at hz
        rcases hz with rfl | hz
        · exact ⟨a, by simp, b, by simp, cc, by simp, rfl⟩
        · obtain ⟨x, hx, y, hy, w, hw, rfl⟩ := ih hz
          exact ⟨x, by simp [hx], y, by simp [hy], w, by simp [hw], rfl⟩

theorem length_zipWith3 (f : α → β → γ → δ) :
    ∀ (l₁ : List α) (l₂ : List β) (l₃ : List γ),
      (List.zipWith3 f l₁ l₂ l₃).length = min (min l₁.length l₂.length) l₃.length := by
  intro l₁
  induction l₁ with
  | nil => intro l₂ l₃; simp [List.zipWith3]
  | cons a l₁ ih =>
    intro l₂ l₃
    cases l₂ with
    | nil => simp [List.zipWith3]
    | cons b l₂ =>
      cases l₃ with
      | nil => simp [List.zipWith3]
      | cons cc l₃ => simp [List.zipWith3, ih l₂ l₃]; omega

theorem length_chunks (n p : ℕ) (l : List α) : (chunks n p l).length = n := by
  induction n generalizing l with
  | zero => simp [chunks]
  | succ n ih => simp [chunks, ih]

theorem mem_chunks_length (n p : ℕ) (l : List α) (h : l.length = n * p) :
    ∀ y ∈ chunks n p l, y.length = p := by
  induction n generalizing l with
  | zero => simp [chunks]
  | succ n ih =>
    intro y hy
    have hs : (n + 1) * p = n * p + p := by ring
    simp only [chunks, List.mem_cons] at hy
    rcases hy with rfl | hy
    · simp only [List.length_take, h]
      omega
    · refine ih (l.drop p) ?_ y hy
      simp only [List.length_drop, h]
      omega

theorem mem_of_mem_chunks (n p : ℕ) (l : List α) :
    ∀ y ∈ chunks n p l, ∀ z ∈ y, z ∈ l := by
  induction n generalizing l with
  | zero => simp [chunks]
  | succ n ih =>
    intro y hy z hz
    simp only [chunks, List.mem_cons] at hy
    rcases hy with rfl | hy
    · exact l.take_subset p hz
    · exact l.drop_subset p (ih (l.drop p) y hy z hz)

theorem flatten_chunks (n p : ℕ) (l : List α) (h : l.length = n * p) :
    (chunks n p l).flatten = l := by
  induction n generalizing l with
  | zero =>
    have hnil : l = [] := List.eq_nil_of_length_eq_zero (by omega)
    simp [chunks, hnil]
  | succ n ih =>
    have hs : (n + 1) * p = n * p + p := by ring
    simp only [chunks, List.flatten_cons]
    rw [ih (l.drop p) (by simp only [List.length_drop, h]; omega), List.take_append_drop]

theorem chunks_shape (n p : ℕ) (l : List (List α)) (hl : l.length = n * p)
    (w : ℕ) (hw : ∀ r ∈ l, r.length = w) :
    Mat3Shape (chunks n p l) n p w := by
  refine ⟨length_chunks n p l, fun y hy => ⟨mem_chunks_length n p l hl y hy, ?_⟩⟩
  exact fun z hz => hw z (mem_of_mem_chunks n p l y hy z hz)

theorem flatten_shape (m : List (List (List α))) (a b c : ℕ)
    (h : Mat3Shape m a b c) :
    m.flatten.length = a * b ∧ ∀ r ∈ m.flatten, r.length = c := by
  obtain ⟨hlen, hmem⟩ := h
  constructor
  · rw [List.length_flatten]
    subst hlen
    induction m with
    | nil => simp
    | cons y m ih =>
      simp only [List.map_cons, List.sum_cons, List.length_cons]
      rw [(hmem y (by simp)).1, ih (fun z hz => hmem z (by simp [hz]))]
      ring
  · intro r hr
    rw [List.mem_flatten] at hr
    obtain ⟨y, hy, hr⟩ := hr
    exact (hmem y hy).2 r hr

theorem getD_map_range (g : ℕ → α) (K i : ℕ) (hi : i < K) (d : α) :
    ((List.range K).map g).getD i d = g i := by
  rw [List.getD_eq_getElem?_getD, List.getElem?_map, List.getElem?_range hi]
  rfl

theorem getD_replicate_of_lt (a d : α) (K i : ℕ) (hi : i < K) :
    (List.replicate K a).getD i d = a := by
  rw [List.getD_eq_getElem?_getD, List.getElem?_replicate]
  simp [hi]

theorem zipWith3_range_replicate (f : ℕ → α → β → γ) (K : ℕ) (x : α) (y : β) :
    List.zipWith3 f (List.range K) (List.replicate K x) (List.replicate K y) =
      (List.range K).map (fun i => f i x y) := by
  have main : ∀ l : List ℕ,
      List.zipWith3 f l (List.replicate l.length x) (List.replicate l.length y) =
        l.map (fun i => f i x y) := by
    intro l
    induction l with
    | nil => simp [List.zipWith3]
    | cons a l ih => simp [List.zipWith3, List.replicate_succ, ih]
  have := main (List.range K)
  rwa [List.length_range] at this

theorem sum_zipWith_add (a b : List ℝ) (h : a.length = b.length) :
    (List.zipWith (· + ·) a b).sum = a.sum + b.sum := by
  induction a generalizing b with
  | nil => simp at h ⊢; rw [List.eq_nil_of_length_eq_zero h.symm]; simp
  | cons x a ih =>
    cases b with
    | nil => simp at h
    | cons y b =>
      simp only [List.zipWith_cons_cons, List.sum_cons]
      rw [ih b (by simpa using h)]
      ring

theorem length_sumAxis0 (w : ℕ) (m : List (List ℝ)) (hm : ∀ r ∈ m, r.length = w) :
    (sumAxis0 w m).length = w := by
  induction m with
  | nil => simp [sumAxis0]
  | cons r m ih =>
    simp only [sumAxis0, List.foldr_cons, List.length_zipWith]
    have h1 := hm r (by simp)
    have h2 : (sumAxis0 w m).length = w := ih (fun r hr => hm r (by simp [hr]))
    simp only [sumAxis0] at h2
    omega

theorem sum_sumAxis0 (w : ℕ) (m : List (List ℝ)) (hm : ∀ r ∈ m, r.length = w) :
    (sumAxis0 w m).sum = (m.map List.sum).sum := by
  induction m with
  | nil => simp [sumAxis0, List.sum_replicate]
  | cons r m ih =>
    simp only [sumAxis0, List.foldr_cons, List.map_cons, List.sum_cons]
    rw [sum_zipWith_add r _ ?_]
    · rw [← ih (fun r hr => hm r (by simp [hr]))]
      rfl
    · rw [hm r (by simp)]
      have := length_sumAxis0 w m (fun r hr => hm r (by simp [hr]))
      simp only [sumAxis0] at this
      omega

theorem sum_map_const_nat (l : List α) (k : ℕ) (f : α → ℕ)
    (h : ∀ a ∈ l, f a = k) : (l.map f).sum = l.length * k := by
  induction l with
  | nil => simp
  | cons a l ih =>
    simp only [List.map_cons, List.sum_cons, List.length_cons]
    rw [h a (by simp), ih (fun a ha => h a (by simp [ha]))]
    ring

namespace DynamicsModelRNNCell

theorem sampleBootstrap_length (c : DynamicsModelRNNCell) (brng : ℕ → ℕ → ℕ)
    (t B : ℕ) : (c.sampleBootstrap brng t B).length = c.numParticles * B := by
  simp [sampleBootstrap]

theorem sampleBootstrap_getD (c : DynamicsModelRNNCell) (brng : ℕ → ℕ → ℕ)
    (t B j : ℕ) (hj : j < c.numParticles * B) :
    (c.sampleBootstrap brng t B).getD j 0 = brng t j % c.numEnsembles := by
  unfold sampleBootstrap
  rw [List.getD_eq_getElem?_getD, List.getElem?_map, List.getElem?_range hj]
  rfl

theorem sampleBootstrap_mem_lt (c : DynamicsModelRNNCell) (brng : ℕ → ℕ → ℕ)
    (t B : ℕ) (hK : 0 < c.numEnsembles) :
    ∀ i ∈ c.sampleBootstrap brng t B, i < c.numEnsembles := by
  intro i hi
  simp only [sampleBootstrap, List.mem_map, List.mem_range] at hi
  obtain ⟨j, _, rfl⟩ := hi
  exact Nat.mod_lt _ hK

theorem sampleBootstrap_congr (c : DynamicsModelRNNCell) (brng₁ brng₂ : ℕ → ℕ → ℕ)
    (t B : ℕ) (h : brng₁ t = brng₂ t) :
    c.sampleBootstrap brng₁ t B = c.sampleBootstrap brng₂ t B := by
  simp [sampleBootstrap, h]

theorem selectSamples_length (c : DynamicsModelRNNCell) (brng : ℕ → ℕ → ℕ)
    (t B : ℕ) (mi : List (List ℚ)) :
    (c.selectSamples brng t B mi).length = min mi.length (c.numParticles * B) := by
  simp [selectSamples, sampleBootstrap, List.length_zipWith]

theorem selectSamples_width (c : DynamicsModelRNNCell) (brng : ℕ → ℕ → ℕ)
    (t B : ℕ) (mi : List (List ℚ)) (W : ℕ) (hK : 0 < c.numEnsembles)
    (hw : ∀ k t' row, (c.model k t' row).length = W) :
    ∀ r ∈ c.selectSamples brng t B mi, r.length = W := by
  intro r hr
  unfold selectSamples at hr
  obtain ⟨samples, hs, i, hi, rfl⟩ := exists_of_mem_zipWith hr
  simp only [List.mem_map] at hs
  obtain ⟨row, _, rfl⟩ := hs
  have hiK : i < c.numEnsembles := c.sampleBootstrap_mem_lt brng t B hK i hi
  rw [getD_map_range _ _ _ hiK]
  exact hw i t row

theorem selectSamples_congr (c : DynamicsModelRNNCell) (brng₁ brng₂ : ℕ → ℕ → ℕ)
    (t B : ℕ) (mi : List (List ℚ)) (h : brng₁ t = brng₂ t) :
    c.selectSamples brng₁ t B mi = c.selectSamples brng₂ t B mi := by
  unfold selectSamples
  rw [c.sampleBootstrap_congr brng₁ brng₂ t B h]

theorem selectSamples_getD (c : DynamicsModelRNNCell) (brng : ℕ → ℕ → ℕ)
    (t B j : ℕ) (mi : List (List ℚ)) (hK : 0 < c.numEnsembles)
    (hj₁ : j < mi.length) (hj₂ : j < c.numParticles * B) :
    (c.selectSamples brng t B mi).getD j [] =
      c.model (brng t j % c.numEnsembles) t (mi.getD j []) := by
  unfold selectSamples sampleBootstrap
  rw [List.getD_eq_getElem?_getD, List.getElem?_zipWith']
  rw [List.getElem?_map, List.getElem?_map, List.getElem?_range hj₂,
    List.getElem?_eq_getElem hj₁]
  simp only [Option.map_some', Option.some_bind]
  rw [getD_map_range _ _ _ (Nat.mod_lt _ hK)]
  rw [List.getD_eq_getElem?_getD, List.getElem?_eq_getElem hj₁]
  rfl

theorem currentActionRaw_shape (c : DynamicsModelRNNCell)
    (inputs stFlat : List (List ℚ)) (N : ℕ)
    (hin : MatShape inputs N c.actDim)
    (hfl : stFlat.length = N * c.numParticles)
    (hpol : ∀ p, c.policy = some p → ∀ row, (p row).length = c.actDim) :
    (c.currentActionRaw inputs stFlat).length = N * c.numParticles ∧
      ∀ r ∈ c.currentActionRaw inputs stFlat, r.length = c.actDim := by
  unfold currentActionRaw
  cases hp : c.policy with
  | none =>
    constructor
    · rw [List.length_flatMap]
      rw [sum_map_const_nat _ c.numParticles _ (fun a _ => by simp)]
      rw [hin.1]
    · intro r hr
      rw [List.mem_flatMap] at hr
      obtain ⟨a, ha, hr⟩ := hr
      rw [List.eq_of_mem_replicate hr]
      exact hin.2 a ha
  | some p =>
    constructor
    · simp [hfl]
    · intro r hr
      rw [List.mem_map] at hr
      obtain ⟨row, _, rfl⟩ := hr
      exact hpol p hp row

theorem nextAndReward_shape (c : DynamicsModelRNNCell)
    (output stFlat currentAction : List (List ℚ)) (n : ℕ)
    (hout : output.length = n) (hst : stFlat.length = n)
    (hca : currentAction.length = n)
    (hwout : ∀ r ∈ output, r.length = c.intendedModelWidth)
    (hwst : ∀ r ∈ stFlat, r.length = c.obsDim)
    (hdeltaN : ScalerDim c.deltaObsNormalizer c.obsDim) :
    (c.nextAndReward output stFlat currentAction).1.length = n ∧
    (∀ r ∈ (c.nextAndReward output stFlat currentAction).1, r.length = c.obsDim) ∧
    (c.nextAndReward output stFlat currentAction).2.length = n := by
  unfold nextAndReward
  cases hrf : c.rewardFn with
  | none =>
    simp only []
    have hwout' : ∀ r ∈ output, r.length = c.obsDim + 1 := by
      intro r hr
      rw [hwout r hr, intendedModelWidth, hrf]
    have hdelta : ∀ r ∈ (output.map List.dropLast).map c.deltaObsNormalizer.inverseCall,
        r.length = c.obsDim := by
      intro r hr
      simp only [List.mem_map] at hr
      obtain ⟨q, ⟨q', hq', rfl⟩, rfl⟩ := hr
      rw [length_scaler_inverseCall, List.length_dropLast, hwout' q' hq',
        hdeltaN.1, hdeltaN.2]
      omega
    refine ⟨?_, ?_, ?_⟩
    · simp only [List.length_zipWith, List.length_map, hout, hst]
      omega
    · intro r hr
      obtain ⟨d, hd, s, hs, rfl⟩ := exists_of_mem_zipWith hr
      simp only [List.length_zipWith]
      rw [hdelta d hd, hwst s hs]
      omega
    · simp only [List.length_map, hout]
  | some f =>
    simp only []
    have hwout' : ∀ r ∈ output, r.length = c.obsDim := by
      intro r hr
      rw [hwout r hr, intendedModelWidth, hrf]
    have hdelta : ∀ r ∈ output.map c.deltaObsNormalizer.inverseCall,
        r.length = c.obsDim := by
      intro r hr
      simp only [List.mem_map] at hr
      obtain ⟨q, hq, rfl⟩ := hr
      rw [length_scaler_inverseCall, hwout' q hq, hdeltaN.1, hdeltaN.2]
      omega
    have hnext : (List.zipWith (fun d s => List.zipWith (· + ·) d s)
        (output.map c.deltaObsNormalizer.inverseCall) stFlat).length = n := by
      simp only [List.length_zipWith, List.length_map, hout, hst]
      omega
    refine ⟨hnext, ?_, ?_⟩
    · intro r hr
      obtain ⟨d, hd, s, hs, rfl⟩ := exists_of_mem_zipWith hr
      simp only [List.length_zipWith]
      rw [hdelta d hd, hwst s hs]
      omega
    · rw [length_zipWith3, hst, hca, hnext]
      omega

theorem doneFlags_length (c : DynamicsModelRNNCell) (B : ℕ)
    (stFlat currentAction nextStates : List (List ℚ)) (n : ℕ)
    (h1 : stFlat.length = n) (h2 : currentAction.length = n)
    (h3 : nextStates.length = n) (hn : n = B * c.numParticles) :
    (c.doneFlags B stFlat currentAction nextStates).length = B * c.numParticles := by
  unfold doneFlags
  cases c.terminateFn with
  | none => simp
  | some g =>
    rw [length_zipWith3, h1, h2, h3]
    omega

theorem call_def (c : DynamicsModelRNNCell) (brng : ℕ → ℕ → ℕ) (t : ℕ)
    (inputs : List (List ℚ)) (states : List (List (List ℚ))) :
    c.call brng t inputs states =
      ((chunks states.length c.numParticles
          (c.nextAndReward
            (c.selectSamples brng t states.length
              (List.zipWith (· ++ ·) (states.flatten.map c.obsNormalizer.call)
                ((c.currentActionRaw inputs states.flatten).map c.actNormalizer.call)))
            states.flatten
            ((c.currentActionRaw inputs states.flatten).map c.actNormalizer.call)).1,
        chunks states.length c.numParticles
          (c.nextAndReward
            (c.selectSamples brng t states.length
              (List.zipWith (· ++ ·) (states.flatten.map c.obsNormalizer.call)
                ((c.currentActionRaw inputs states.flatten).map c.actNormalizer.call)))
            states.flatten
            ((c.currentActionRaw inputs states.flatten).map c.actNormalizer.call)).2,
        chunks states.length c.numParticles
          (c.doneFlags states.length states.flatten
            ((c.currentActionRaw inputs states.flatten).map c.actNormalizer.call)
            (c.nextAndReward
              (c.selectSamples brng t states.length
                (List.zipWith (· ++ ·) (states.flatten.map c.obsNormalizer.call)
                  ((c.currentActionRaw inputs states.flatten).map c.actNormalizer.call)))
              states.flatten
              ((c.currentActionRaw inputs states.flatten).map c.actNormalizer.call)).1)),
       chunks states.length c.numParticles
         (c.nextAndReward
           (c.selectSamples brng t states.length
             (List.zipWith (· ++ ·) (states.flatten.map c.obsNormalizer.call)
               ((c.currentActionRaw inputs states.flatten).map c.actNormalizer.call)))
           states.flatten
           ((c.currentActionRaw inputs states.flatten).map c.actNormalizer.call)).1) :=
  rfl

theorem call_shape (c : DynamicsModelRNNCell) (brng : ℕ → ℕ → ℕ) (t : ℕ)
    (inputs : List (List ℚ)) (states : List (List (List ℚ))) (N : ℕ)
    (hst : Mat3Shape states N c.numParticles c.obsDim)
    (hin : MatShape inputs N c.actDim)
    (hdeltaN : ScalerDim c.deltaObsNormalizer c.obsDim)
    (hw : ∀ k t' row, (c.model k t' row).length = c.intendedModelWidth)
    (hK : 0 < c.numEnsembles)
    (hpol : ∀ p, c.policy = some p → ∀ row, (p row).length = c.actDim) :
    Mat3Shape (c.call brng t inputs states).1.1 N c.numParticles c.obsDim ∧
    MatShape (c.call brng t inputs states).1.2.1 N c.numParticles ∧
    MatShape (c.call brng t inputs states).1.2.2 N c.numParticles ∧
    Mat3Shape (c.call brng t inputs states).2 N c.numParticles c.obsDim := by
  have hB : states.length = N := hst.1
  obtain ⟨hflLen, hflW⟩ := flatten_shape states N c.numParticles c.obsDim hst
  obtain ⟨hcaLen, _⟩ := c.currentActionRaw_shape inputs states.flatten N hin hflLen hpol
  have hcaLen' : ((c.currentActionRaw inputs states.flatten).map
      c.actNormalizer.call).length = N * c.numParticles := by
    rw [List.length_map, hcaLen]
  have hmiLen : (List.zipWith (· ++ ·) (states.flatten.map c.obsNormalizer.call)
      ((c.currentActionRaw inputs states.flatten).map c.actNormalizer.call)).length =
      N * c.numParticles := by
    rw [List.length_zipWith, List.length_map, hflLen, hcaLen']
    omega
  have hcomm : c.numParticles * states.length = N * c.numParticles := by
    rw [hB]; ring
  have houtLen : (c.selectSamples brng t states.length
      (List.zipWith (· ++ ·) (states.flatten.map c.obsNormalizer.call)
        ((c.currentActionRaw inputs states.flatten).map c.actNormalizer.call))).length =
      N * c.numParticles := by
    rw [c.selectSamples_length, hmiLen, hcomm, min_self]
  have houtW := c.selectSamples_width brng t states.length
    (List.zipWith (· ++ ·) (states.flatten.map c.obsNormalizer.call)
      ((c.currentActionRaw inputs states.flatten).map c.actNormalizer.call))
    c.intendedModelWidth hK hw
  obtain ⟨hnrLen, hnrW, hrewLen⟩ := c.nextAndReward_shape _ states.flatten _
    (N * c.numParticles) houtLen hflLen hcaLen' houtW hflW hdeltaN
  have hdnLen := c.doneFlags_length states.length states.flatten _ _
    (N * c.numParticles) hflLen hcaLen' hnrLen (by rw [hB])
  rw [call_def]
  refine ⟨?_, ?_, ?_, ?_⟩
  · exact hB ▸ chunks_shape _ _ _ (by rw [hnrLen, hB]) _ hnrW
  · exact ⟨by rw [length_chunks, hB], fun r hr =>
      mem_chunks_length _ _ _ (by rw [hrewLen, hB]) r hr⟩
  · exact ⟨by rw [length_chunks, hB], fun r hr =>
      mem_chunks_length _ _ _ (by rw [hdnLen]) r hr⟩
  · exact hB ▸ chunks_shape _ _ _ (by rw [hnrLen, hB]) _ hnrW

theorem call_congr (c : DynamicsModelRNNCell) (brng₁ brng₂ : ℕ → ℕ → ℕ) (t : ℕ)
    (h : brng₁ t = brng₂ t) (inputs : List (List ℚ))
    (states : List (List (List ℚ))) :
    c.call brng₁ t inputs states = c.call brng₂ t inputs states := by
  rw [call_def, call_def, c.selectSamples_congr brng₁ brng₂ t states.length _ h]

theorem call_terminateFn_proj (c : DynamicsModelRNNCell)
    (g : Option (List ℚ → List ℚ → List ℚ → Bool)) (brng : ℕ → ℕ → ℕ) (t : ℕ)
    (inputs : List (List ℚ)) (states : List (List (List ℚ))) :
    (({ c with terminateFn := g } : DynamicsModelRNNCell).call brng t inputs
        states).1.1 = (c.call brng t inputs states).1.1 ∧
    (({ c with terminateFn := g } : DynamicsModelRNNCell).call brng t inputs
        states).1.2.1 = (c.call brng t inputs states).1.2.1 ∧
    (({ c with terminateFn := g } : DynamicsModelRNNCell).call brng t inputs
        states).2 = (c.call brng t inputs states).2 := by
  cases c
  exact ⟨rfl, rfl, rfl⟩

theorem call_done_false (c : DynamicsModelRNNCell) (hterm : c.terminateFn = none)
    (brng : ℕ → ℕ → ℕ) (t : ℕ) (inputs : List (List ℚ))
    (states : List (List (List ℚ))) :
    ∀ y ∈ (c.call brng t inputs states).1.2.2, ∀ b ∈ y, b = false := by
  intro y hy b hb
  rw [call_def] at hy
  dsimp only at hy
  have hmem := mem_of_mem_chunks _ _ _ y hy b hb
  unfold doneFlags at hmem
  rw [hterm] at hmem
  exact List.eq_of_mem_replicate hmem

end DynamicsModelRNNCell

theorem rolloutRun_length (c : DynamicsModelRNNCell) (brng : ℕ → ℕ → ℕ) :
    ∀ (t : ℕ) (acts st : List (List (List ℚ))),
      (rolloutRun c brng t acts st).length = acts.length := by
  intro t acts
  induction acts generalizing t with
  | nil => intro st; rfl
  | cons a rest ih =>
    intro st
    simp only [rolloutRun, List.length_cons, ih (t + 1)]

theorem rolloutRun_shape (c : DynamicsModelRNNCell) (brng : ℕ → ℕ → ℕ) (N : ℕ)
    (hdeltaN : ScalerDim c.deltaObsNormalizer c.obsDim)
    (hw : ∀ k t' row, (c.model k t' row).length = c.intendedModelWidth)
    (hK : 0 < c.numEnsembles)
    (hpol : ∀ p, c.policy = some p → ∀ row, (p row).length = c.actDim) :
    ∀ (t : ℕ) (acts st : List (List (List ℚ))),
      Mat3Shape st N c.numParticles c.obsDim →
      (∀ a ∈ acts, MatShape a N c.actDim) →
      ∀ o ∈ rolloutRun c brng t acts st,
        Mat3Shape o.1 N c.numParticles c.obsDim ∧
        MatShape o.2.1 N c.numParticles ∧
        MatShape o.2.2 N c.numParticles := by
  intro t acts
  induction acts generalizing t with
  | nil => intro st _ _ o ho; simp [rolloutRun] at ho
  | cons a rest ih =>
    intro st hst hacts o ho
    obtain ⟨hsh₁, hsh₂, hsh₃, hsh₄⟩ := c.call_shape brng t a st N hst
      (hacts a (by simp)) hdeltaN hw hK hpol
    simp only [rolloutRun, List.mem_cons] at ho
    rcases ho with rfl | ho
    · exact ⟨hsh₁, hsh₂, hsh₃⟩
    · exact ih (t + 1) _ hsh₄ (fun a' ha' => hacts a' (by simp [ha'])) o ho

theorem rolloutRun_done_false (c : DynamicsModelRNNCell)
    (hterm : c.terminateFn = none) (brng : ℕ → ℕ → ℕ) :
    ∀ (t : ℕ) (acts st : List (List (List ℚ))),
      ∀ o ∈ rolloutRun c brng t acts st, ∀ y ∈ o.2.2, ∀ b ∈ y, b = false := by
  intro t acts
  induction acts generalizing t with
  | nil => intro st o ho; simp [rolloutRun] at ho
  | cons a rest ih =>
    intro st o ho
    simp only [rolloutRun, List.mem_cons] at ho
    rcases ho with rfl | ho
    · exact c.call_done_false hterm brng t a st
    · exact ih (t + 1) _ o ho

theorem rolloutRun_terminateFn_proj (c : DynamicsModelRNNCell)
    (g : Option (List ℚ → List ℚ → List ℚ → Bool)) (brng : ℕ → ℕ → ℕ) :
    ∀ (t : ℕ) (acts st : List (List (List ℚ))),
      (rolloutRun ({ c with terminateFn := g }) brng t acts st).map
          (fun o => (o.1, o.2.1)) =
        (rolloutRun c brng t acts st).map (fun o => (o.1, o.2.1)) := by
  intro t acts
  induction acts generalizing t with
  | nil => intro st; rfl
  | cons a rest ih =>
    intro st
    obtain ⟨h1, h2, h3⟩ := c.call_terminateFn_proj g brng t a st
    have hhead :
        ((({ c with terminateFn := g } : DynamicsModelRNNCell).call brng t a st).1.1,
          (({ c with terminateFn := g } : DynamicsModelRNNCell).call brng t a
              st).1.2.1) =
          ((c.call brng t a st).1.1, (c.call brng t a st).1.2.1) := by
      rw [h1, h2]
    simp only [rolloutRun, List.map_cons]
    rw [h3, ih (t + 1), hhead]

theorem rolloutRun_congr (c : DynamicsModelRNNCell) (brng₁ brng₂ : ℕ → ℕ → ℕ) :
    ∀ (t : ℕ) (acts st : List (List (List ℚ))),
      (∀ j < acts.length, brng₁ (t + j) = brng₂ (t + j)) →
      rolloutRun c brng₁ t acts st = rolloutRun c brng₂ t acts st := by
  intro t acts
  induction acts generalizing t with
  | nil => intro st _; rfl
  | cons a rest ih =>
    intro st h
    have h0 : brng₁ t = brng₂ t := by
      have := h 0 (by simp)
      simpa using this
    simp only [rolloutRun]
    rw [c.call_congr brng₁ brng₂ t h0 a st]
    rw [ih (t + 1) _ ?_]
    intro j hj
    have he : t + (j + 1) = t + 1 + j := by ring
    have := h (j + 1) (by simp only [List.length_cons]; omega)
    rwa [he] at this

theorem nextAndReward_some (c : DynamicsModelRNNCell)
    (f : List ℚ → List ℚ → List ℚ → ℚ) (hf : c.rewardFn = some f)
    (output stFlat ca : List (List ℚ)) :
    c.nextAndReward output stFlat ca =
      (List.zipWith (fun d s => List.zipWith (· + ·) d s)
        (output.map c.deltaObsNormalizer.inverseCall) stFlat,
       List.zipWith3 f stFlat ca
        (List.zipWith (fun d s => List.zipWith (· + ·) d s)
          (output.map c.deltaObsNormalizer.inverseCall) stFlat)) := by
  unfold DynamicsModelRNNCell.nextAndReward
  rw [hf]

theorem nextAndReward_none (c : DynamicsModelRNNCell) (hf : c.rewardFn = none)
    (output stFlat ca : List (List ℚ)) :
    c.nextAndReward output stFlat ca =
      (List.zipWith (fun d s => List.zipWith (· + ·) d s)
        ((output.map List.dropLast).map c.deltaObsNormalizer.inverseCall) stFlat,
       (output.map (fun r => r.getLastD 0)).map c.rewNormalizer.inverseCall) := by
  unfold DynamicsModelRNNCell.nextAndReward
  rw [hf]

/-- C2: every call to `EnsembleWorldModel.build_ts_model` raises
`AttributeError`, whether or not a `reward_fn` was supplied: its first
attribute read is `self.model`, and neither `model` nor `num_ensembles` is
ever assigned by the constructor, which stores the dynamics network only
under `dynamics_model` and does not keep `num_ensembles` on the facade. -/
theorem build_ts_model_raises_attribute_error :
    ∀ hasRewardFn : Bool,
      buildTsModelE hasRewardFn = Except.error "AttributeError" ∧
      "model" ∉ ensembleWorldModelAttrs hasRewardFn ∧
      "num_ensembles" ∉ ensembleWorldModelAttrs hasRewardFn := by
  intro b
  cases b
  · exact ⟨rfl, by decide, by decide⟩
  · exact ⟨rfl, by decide, by decide⟩

/-- C5 (code bug): with an analytic `reward_fn` supplied at construction,
`EnsembleWorldModel.update` does not succeed: lines 311 and 316 of models.py
read `self.rew_normalizer` and `self.rew_model` unconditionally, but the
constructor assigned neither, so the update raises `AttributeError`.  With no
`reward_fn` the same sequence of reads succeeds. -/
theorem update_with_reward_fn_raises_attribute_error :
    ensembleWorldModelUpdateE true = Except.error "AttributeError" ∧
    ensembleWorldModelUpdateE false = Except.ok () :=
  ⟨rfl, rfl⟩

/-- C10: the Normalizer round-trip law: for every input batch row `x` and
every adapted state whose std was floored at a positive epsilon (hence is
nonzero), `inverse_call (call x) = x` exactly — the embedding computes in
exact rational arithmetic, so the affine round trip is an identity. -/
theorem normalizer_roundtrip (eps : ℚ) (heps : 0 < eps) (mean rawStd x : List ℚ)
    (hxm : x.length = mean.length)
    (hmsd : mean.length = (StandardScaler.floorStd eps rawStd).length) :
    StandardScaler.inverseCall ⟨mean, StandardScaler.floorStd eps rawStd⟩
      (StandardScaler.call ⟨mean, StandardScaler.floorStd eps rawStd⟩ x) = x := by
  refine zipWith_roundtrip x mean _ hxm hmsd ?_
  intro v hv
  exact ne_of_gt (floorStd_pos eps heps rawStd v hv)

/-- Witness for the round-trip law at a concrete adapted normalizer: mean
`[1, -2]`, raw std `[0, 3]` floored at `1/2`, input `[5, 7]`. -/
theorem normalizer_roundtrip_witness :
    (0 : ℚ) < 1 / 2 ∧
    ([5, 7] : List ℚ).length = ([1, -2] : List ℚ).length ∧
    StandardScaler.inverseCall ⟨[1, -2], StandardScaler.floorStd (1 / 2) [0, 3]⟩
      (StandardScaler.call ⟨[1, -2], StandardScaler.floorStd (1 / 2) [0, 3]⟩
        [5, 7]) = [5, 7] :=
  ⟨by norm_num, rfl,
    normalizer_roundtrip (1 / 2) (by norm_num) [1, -2] [0, 3] [5, 7] rfl rfl⟩

/-- C8: `predict_on_batch` with `sample=False` is a deterministic,
ensemble-mean prediction: the returned (next_state, reward, done) triple is
the same for any two random streams (no random draw occurs on this path),
and the next state is the current state plus the denormalized mean over the
K ensemble members of each member's distribution mean. -/
theorem predict_on_batch_no_sample_deterministic (wm : EnsembleWorldModel)
    (rng₁ rng₂ : ℕ → ℕ) (state action : List (List ℚ)) :
    wm.predictOnBatchTf rng₁ state action false =
      wm.predictOnBatchTf rng₂ state action false ∧
    (wm.predictOnBatchTf rng₁ state action false).1 =
      List.zipWith
        (fun row s =>
          List.zipWith (· + ·)
            (wm.deltaObsNormalizer.inverseCall
              (meanAxis0 wm.obsDim
                ((List.range wm.numEnsembles).map (fun k => wm.dynamicsMean k row))))
            s)
        (List.zipWith (· ++ ·) (state.map wm.obsNormalizer.call)
          (action.map wm.actionNormalizer.call))
        state := by
  constructor
  · rfl
  · show (List.zipWith (fun d s => List.zipWith (· + ·) d s)
        ((List.zipWith (· ++ ·) (state.map wm.obsNormalizer.call)
            (action.map wm.actionNormalizer.call)).map
          ((fun row =>
            meanAxis0 wm.obsDim
              ((List.range wm.numEnsembles).map
                (fun k => wm.dynamicsMean k row)))) |>.map
          wm.deltaObsNormalizer.inverseCall)
        state) = _
    rw [List.map_map, List.zipWith_map_left]
    rfl

/-- C9: with no termination oracle every emitted done flag of every rollout
step is false; and the done flag is purely informational — swapping the
termination oracle for any other (or none) changes neither the emitted
next-state sequence nor the reward sequence of any step, because the carried
state is only the particle positions. -/
theorem rollout_done_false_and_informational (c : DynamicsModelRNNCell)
    (brng : ℕ → ℕ → ℕ) (t : ℕ) (acts st : List (List (List ℚ))) :
    (c.terminateFn = none →
      ∀ o ∈ rolloutRun c brng t acts st, ∀ y ∈ o.2.2, ∀ b ∈ y, b = false) ∧
    ∀ g, (rolloutRun ({ c with terminateFn := g }) brng t acts st).map
        (fun o => (o.1, o.2.1)) =
      (rolloutRun c brng t acts st).map (fun o => (o.1, o.2.1)) :=
  ⟨fun h => rolloutRun_done_false c h brng t acts st,
   fun g => rolloutRun_terminateFn_proj c g brng t acts st⟩

/-- Witness for C9 at a concrete rollout: the example analytic-reward cell
(which has no termination oracle) run for two steps on one initial state
emits only false done flags, and installing a termination oracle that always
fires leaves the next-state and reward sequences unchanged. -/
theorem rollout_done_false_and_informational_witness :
    (∀ o ∈ rolloutRun exampleCellRewardFn zeroStream 0 [[[3]], [[4]]] [[[10]]],
      ∀ y ∈ o.2.2, ∀ b ∈ y, b = false) ∧
    (rolloutRun ({ exampleCellRewardFn with
        terminateFn := some (fun _ _ _ => true) }) zeroStream 0
        [[[3]], [[4]]] [[[10]]]).map (fun o => (o.1, o.2.1)) =
      (rolloutRun exampleCellRewardFn zeroStream 0
        [[[3]], [[4]]] [[[10]]]).map (fun o => (o.1, o.2.1)) :=
  ⟨(rollout_done_false_and_informational exampleCellRewardFn zeroStream 0
      [[[3]], [[4]]] [[[10]]]).1 rfl,
   (rollout_done_false_and_informational exampleCellRewardFn zeroStream 0
      [[[3]], [[4]]] [[[10]]]).2 (some (fun _ _ _ => true))⟩

/-- C7: at every rollout time step the bootstrap assignment is drawn fresh:
the index used for flat particle `j` at step `t` is the step-`t` stream draw
`brng t j % K`, which lies in `[0, K)`; the sample emitted for that particle
is exactly the selected ensemble member's sample for that particle; the
recurrent state carries only the particle positions, so no member assignment
survives a step; and the rollout reads the bootstrap stream only at the
coordinate of the current step, so each step's assignment is fresh and never
reused from previous steps. -/
theorem bootstrap_resampled_every_step (c : DynamicsModelRNNCell)
    (brng : ℕ → ℕ → ℕ) (t B j : ℕ) (mi : List (List ℚ))
    (hK : 0 < c.numEnsembles) (hj₁ : j < mi.length)
    (hj₂ : j < c.numParticles * B) :
    (c.sampleBootstrap brng t B).getD j 0 = brng t j % c.numEnsembles ∧
    (∀ i ∈ c.sampleBootstrap brng t B, i < c.numEnsembles) ∧
    (c.selectSamples brng t B mi).getD j [] =
      c.model (brng t j % c.numEnsembles) t (mi.getD j []) ∧
    (∀ inputs states,
      (c.call brng t inputs states).2 = (c.call brng t inputs states).1.1) ∧
    (∀ (brng₁ brng₂ : ℕ → ℕ → ℕ) (t₀ : ℕ) (acts st : List (List (List ℚ))),
      (∀ i < acts.length, brng₁ (t₀ + i) = brng₂ (t₀ + i)) →
      rolloutRun c brng₁ t₀ acts st = rolloutRun c brng₂ t₀ acts st) :=
  ⟨c.sampleBootstrap_getD brng t B j hj₂,
   c.sampleBootstrap_mem_lt brng t B hK,
   c.selectSamples_getD brng t B j mi hK hj₁ hj₂,
   fun _ _ => rfl,
   fun brng₁ brng₂ t₀ acts st h => rolloutRun_congr c brng₁ brng₂ t₀ acts st h⟩

/-- Witness for C7 at the concrete example cell with two ensemble members,
one particle, batch one, at flat index 0. -/
theorem bootstrap_resampled_every_step_witness :
    0 < exampleCellRewardFn.numEnsembles ∧ (0 : ℕ) < 1 ∧
    0 < exampleCellRewardFn.numParticles * 1 ∧
    ((exampleCellRewardFn.sampleBootstrap zeroStream 0 1).getD 0 0 =
        zeroStream 0 0 % exampleCellRewardFn.numEnsembles ∧
      (∀ i ∈ exampleCellRewardFn.sampleBootstrap zeroStream 0 1,
        i < exampleCellRewardFn.numEnsembles) ∧
      (exampleCellRewardFn.selectSamples zeroStream 0 1 [[5]]).getD 0 [] =
        exampleCellRewardFn.model
          (zeroStream 0 0 % exampleCellRewardFn.numEnsembles) 0
          (([[5]] : List (List ℚ)).getD 0 []) ∧
      (∀ inputs states,
        (exampleCellRewardFn.call zeroStream 0 inputs states).2 =
          (exampleCellRewardFn.call zeroStream 0 inputs states).1.1) ∧
      (∀ (brng₁ brng₂ : ℕ → ℕ → ℕ) (t₀ : ℕ)
          (acts st : List (List (List ℚ))),
        (∀ i < acts.length, brng₁ (t₀ + i) = brng₂ (t₀ + i)) →
        rolloutRun exampleCellRewardFn brng₁ t₀ acts st =
          rolloutRun exampleCellRewardFn brng₂ t₀ acts st)) :=
  ⟨by decide, by decide, by decide,
   bootstrap_resampled_every_step exampleCellRewardFn zeroStream 0 1 0 [[5]]
     (by decide) (by decide) (by decide)⟩

/-- C1 (intended rollout semantics): driving the step machine over the whole
action sequence yields exactly `H = acts.length` step outputs — no early
exit, whatever the done values are — and each step's next-state, reward and
done tensors have shapes `(N, P, obs_dim)`, `(N, P)` and `(N, P)`, provided
the bound model produces samples of the width the cell's split consumes.
(The facade's `build_ts_model` itself never reaches this point: it raises
`AttributeError` on `self.model`.) -/
theorem rollout_run_shapes (c : DynamicsModelRNNCell) (brng : ℕ → ℕ → ℕ)
    (N H : ℕ) (acts st : List (List (List ℚ))) (hH : acts.length = H)
    (hst : Mat3Shape st N c.numParticles c.obsDim)
    (hacts : ∀ a ∈ acts, MatShape a N c.actDim)
    (hdeltaN : ScalerDim c.deltaObsNormalizer c.obsDim)
    (hw : ∀ k t' row, (c.model k t' row).length = c.intendedModelWidth)
    (hK : 0 < c.numEnsembles)
    (hpol : ∀ p, c.policy = some p → ∀ row, (p row).length = c.actDim) :
    (rolloutRun c brng 0 acts st).length = H ∧
    ∀ o ∈ rolloutRun c brng 0 acts st,
      Mat3Shape o.1 N c.numParticles c.obsDim ∧
      MatShape o.2.1 N c.numParticles ∧
      MatShape o.2.2 N c.numParticles :=
  ⟨by rw [rolloutRun_length, hH],
   rolloutRun_shape c brng N hdeltaN hw hK hpol 0 acts st hst hacts⟩

/-- Witness for C1's rollout-shape theorem: the example analytic-reward cell
run for horizon 2 on one initial state with one particle. -/
theorem rollout_run_shapes_witness :
    Mat3Shape [[[10]]] 1 exampleCellRewardFn.numParticles
      exampleCellRewardFn.obsDim ∧
    0 < exampleCellRewardFn.numEnsembles ∧
    (rolloutRun exampleCellRewardFn zeroStream 0 [[[3]], [[4]]]
        [[[10]]]).length = 2 ∧
    ∀ o ∈ rolloutRun exampleCellRewardFn zeroStream 0 [[[3]], [[4]]] [[[10]]],
      Mat3Shape o.1 1 exampleCellRewardFn.numParticles
        exampleCellRewardFn.obsDim ∧
      MatShape o.2.1 1 exampleCellRewardFn.numParticles ∧
      MatShape o.2.2 1 exampleCellRewardFn.numParticles := by
  have h := rollout_run_shapes exampleCellRewardFn zeroStream 1 2
    [[[3]], [[4]]] [[[10]]] rfl (by decide) (by decide) (by decide)
    (fun k t' row => rfl) (by decide) (fun p hp => Option.noConfusion hp)
  exact ⟨by decide, by decide, h.1, h.2⟩

theorem call_rewNormalizer_proj (c : DynamicsModelRNNCell)
    (f : List ℚ → List ℚ → List ℚ → ℚ) (hf : c.rewardFn = some f)
    (r : ScalarStandardScaler) (brng : ℕ → ℕ → ℕ) (t : ℕ)
    (inputs : List (List ℚ)) (states : List (List (List ℚ))) :
    ({ c with rewNormalizer := r } : DynamicsModelRNNCell).call brng t inputs
        states = c.call brng t inputs states := by
  rcases c with ⟨model, rf, tf, onn, ann, dnn, rnn, np, ne, od, ad, pol⟩
  cases hf
  rfl

/-- C3 is false as stated: at a concrete step of the example analytic-reward
cell the emitted per-particle reward is `1` — the value of `reward_fn` on the
normalized action `(3 - 1) / 2 = 1` — whereas
`reward_fn(state, action, next_state)` with the unnormalized action `3`
determined in step 1 of the step machine (and the step's actual state `[10]`
and emitted next state `[10]`) yields `3`. -/
theorem reward_fn_gets_normalized_action_cex :
    (exampleCellRewardFn.call zeroStream 0 [[3]] [[[10]]]).1.2.1 = [[1]] ∧
    (exampleCellRewardFn.call zeroStream 0 [[3]] [[[10]]]).1.1 = [[[10]]] ∧
    exampleRewardFn [10] [3] [10] = 3 ∧
    ([[1]] : List (List ℚ)) ≠ [[3]] := by
  refine ⟨?_, ?_, rfl, by simp⟩ <;>
    norm_num [DynamicsModelRNNCell.call, DynamicsModelRNNCell.currentActionRaw,
      DynamicsModelRNNCell.selectSamples, DynamicsModelRNNCell.sampleBootstrap,
      DynamicsModelRNNCell.nextAndReward, DynamicsModelRNNCell.doneFlags,
      StandardScaler.call, StandardScaler.inverseCall,
      ScalarStandardScaler.inverseCall, chunks, zeroStream, exampleRewardFn,
      exampleCellRewardFn, List.zipWith3, List.range_succ, List.getD]

/-- C3 amended: on the analytic-reward path the reward emitted for each
particle equals `reward_fn(state, normalized_action, next_state)` exactly,
where `normalized_action` is the step-1 action after the action Normalizer
(models.py line 60 rebinds `current_action` before line 82 uses it); the
learned Reward Model and reward Normalizer play no part — the whole step
output is invariant under replacing the reward Normalizer — and a supplied
termination oracle likewise receives the normalized action. -/
theorem reward_fn_receives_normalized_action (c : DynamicsModelRNNCell)
    (f : List ℚ → List ℚ → List ℚ → ℚ) (hf : c.rewardFn = some f)
    (brng : ℕ → ℕ → ℕ) (t : ℕ) (inputs : List (List ℚ))
    (states : List (List (List ℚ))) (N : ℕ)
    (hst : Mat3Shape states N c.numParticles c.obsDim)
    (hin : MatShape inputs N c.actDim)
    (hdeltaN : ScalerDim c.deltaObsNormalizer c.obsDim)
    (hw : ∀ k t' row, (c.model k t' row).length = c.intendedModelWidth)
    (hK : 0 < c.numEnsembles)
    (hpol : ∀ p, c.policy = some p → ∀ row, (p row).length = c.actDim) :
    (c.call brng t inputs states).1.2.1.flatten =
      List.zipWith3 f states.flatten
        ((c.currentActionRaw inputs states.flatten).map c.actNormalizer.call)
        (c.call brng t inputs states).1.1.flatten ∧
    (∀ r, ({ c with rewNormalizer := r } : DynamicsModelRNNCell).call brng t
        inputs states = c.call brng t inputs states) ∧
    (∀ g, c.terminateFn = some g →
      (c.call brng t inputs states).1.2.2.flatten =
        List.zipWith3 g states.flatten
          ((c.currentActionRaw inputs states.flatten).map c.actNormalizer.call)
          (c.call brng t inputs states).1.1.flatten) := by
  have hB : states.length = N := hst.1
  obtain ⟨hflLen, hflW⟩ := flatten_shape states N c.numParticles c.obsDim hst
  obtain ⟨hcaLen, _⟩ :=
    c.currentActionRaw_shape inputs states.flatten N hin hflLen hpol
  have hcaLen' : ((c.currentActionRaw inputs states.flatten).map
      c.actNormalizer.call).length = N * c.numParticles := by
    rw [List.length_map, hcaLen]
  have hmiLen : (List.zipWith (· ++ ·) (states.flatten.map c.obsNormalizer.call)
      ((c.currentActionRaw inputs states.flatten).map
        c.actNormalizer.call)).length = N * c.numParticles := by
    rw [List.length_zipWith, List.length_map, hflLen, hcaLen']
    omega
  have hcomm : c.numParticles * states.length = N * c.numParticles := by
    rw [hB]; ring
  have houtLen : (c.selectSamples brng t states.length
      (List.zipWith (· ++ ·) (states.flatten.map c.obsNormalizer.call)
        ((c.currentActionRaw inputs states.flatten).map
          c.actNormalizer.call))).length = N * c.numParticles := by
    rw [c.selectSamples_length, hmiLen, hcomm, min_self]
  have houtW := c.selectSamples_width brng t states.length
    (List.zipWith (· ++ ·) (states.flatten.map c.obsNormalizer.call)
      ((c.currentActionRaw inputs states.flatten).map c.actNormalizer.call))
    c.intendedModelWidth hK hw
  obtain ⟨hnrLen, hnrW, hrewLen⟩ := c.nextAndReward_shape _ states.flatten _
    (N * c.numParticles) houtLen hflLen hcaLen' houtW hflW hdeltaN
  have hdnLen := c.doneFlags_length states.length states.flatten _ _
    (N * c.numParticles) hflLen hcaLen' hnrLen (by rw [hB])
  refine ⟨?_, fun r => call_rewNormalizer_proj c f hf r brng t inputs states, ?_⟩
  · rw [DynamicsModelRNNCell.call_def]
    dsimp only
    rw [flatten_chunks _ _ _ (by rw [hrewLen, hB]),
      flatten_chunks _ _ _ (by rw [hnrLen, hB])]
    rw [nextAndReward_some c f hf]
  · intro g hg
    rw [DynamicsModelRNNCell.call_def]
    dsimp only
    rw [flatten_chunks _ _ _ (by rw [hdnLen]),
      flatten_chunks _ _ _ (by rw [hnrLen, hB])]
    unfold DynamicsModelRNNCell.doneFlags
    rw [hg, nextAndReward_some c f hf]

/-- Witness for C3's amended theorem at the example analytic-reward cell: one
step on state `[[10]]` with teacher-forced action `[3]`. -/
theorem reward_fn_receives_normalized_action_witness :
    exampleCellRewardFn.rewardFn = some exampleRewardFn ∧
    0 < exampleCellRewardFn.numEnsembles ∧
    (exampleCellRewardFn.call zeroStream 0 [[3]] [[[10]]]).1.2.1.flatten =
      List.zipWith3 exampleRewardFn ([[[10]]] : List (List (List ℚ))).flatten
        ((exampleCellRewardFn.currentActionRaw [[3]]
            ([[[10]]] : List (List (List ℚ))).flatten).map
          exampleCellRewardFn.actNormalizer.call)
        (exampleCellRewardFn.call zeroStream 0 [[3]] [[[10]]]).1.1.flatten :=
  ⟨rfl, by decide,
   (reward_fn_receives_normalized_action exampleCellRewardFn exampleRewardFn
      rfl zeroStream 0 [[3]] [[[10]]] 1 (by decide) (by decide) (by decide)
      (fun k t' row => rfl) (by decide)
      (fun p hp => Option.noConfusion hp)).1⟩

/-- C4 (code bug): with no analytic reward function the cell splits the
selected sample into `sample[:-1]` (read as normalized delta-state) and
`sample[-1]` (read as normalized fused reward), but the facade's dynamics
model emits samples of width exactly `obs_dim`
(`build_computation_graph` parameterizes the Gaussian with
`output_dim = obs_dim * 2`, i.e. event width `obs_dim`; no reward is ever
fused), so the delta-state — and hence every emitted next-state row — is
`obs_dim - 1` wide instead of the `obs_dim` the claim states, and the
"fused reward" is just the last delta component. -/
theorem fused_split_width_mismatch (c : DynamicsModelRNNCell)
    (hf : c.rewardFn = none) (output stFlat ca : List (List ℚ))
    (hwout : ∀ r ∈ output, r.length = dynamicsModelSampleWidth c.obsDim)
    (hwst : ∀ r ∈ stFlat, r.length = c.obsDim)
    (hdeltaN : ScalerDim c.deltaObsNormalizer c.obsDim)
    (hobs : 0 < c.obsDim) :
    dynamicsModelSampleWidth c.obsDim = c.obsDim ∧
    (∀ r ∈ (c.nextAndReward output stFlat ca).1, r.length = c.obsDim - 1) ∧
    c.obsDim - 1 ≠ c.obsDim := by
  have hwidth : dynamicsModelSampleWidth c.obsDim = c.obsDim := by
    unfold dynamicsModelSampleWidth independentNormalEventDim
    omega
  refine ⟨hwidth, ?_, by omega⟩
  rw [nextAndReward_none c hf]
  intro r hr
  obtain ⟨d, hd, s, hs, rfl⟩ := exists_of_mem_zipWith hr
  simp only [List.mem_map] at hd
  obtain ⟨q, ⟨q', hq', rfl⟩, rfl⟩ := hd
  rw [List.length_zipWith, length_scaler_inverseCall, List.length_dropLast,
    hwout q' hq', hwidth, hwst s hs, hdeltaN.1, hdeltaN.2]
  omega

/-- Witness for C4's width-mismatch theorem with obs_dim 3: the sample
`[1, 2, 3]` loses its last entry to the "fused reward", leaving 2-wide
next-state rows. -/
theorem fused_split_width_mismatch_witness :
    exampleCellNoRewardFn.rewardFn = none ∧
    0 < exampleCellNoRewardFn.obsDim ∧
    (dynamicsModelSampleWidth exampleCellNoRewardFn.obsDim =
        exampleCellNoRewardFn.obsDim ∧
      (∀ r ∈ (exampleCellNoRewardFn.nextAndReward [[1, 2, 3]] [[10, 20, 30]]
          [[0]]).1, r.length = exampleCellNoRewardFn.obsDim - 1) ∧
      exampleCellNoRewardFn.obsDim - 1 ≠ exampleCellNoRewardFn.obsDim) :=
  ⟨rfl, by decide,
   fused_split_width_mismatch exampleCellNoRewardFn rfl [[1, 2, 3]]
     [[10, 20, 30]] [[0]] (by decide) (by decide) (by decide) (by decide)⟩

/-- C6 is false as stated: the quantity handed to `minimize` sums over the
ensemble axis instead of averaging over it.  With K = 2 identical members
predicting the target exactly at unit scale on a one-element batch, the
minimized loss is `log (2π)` while the ensemble-and-batch-averaged loss the
claim describes is `log (2π) / 2`, and `log (2π) > 0`. -/
theorem train_loss_not_ensemble_averaged_cex :
    dynamicsTrainLoss 2 (fun _ _ => ([7], [1])) [[0]] [[7]] ≠
      specDynamicsLoss 2 (fun _ _ => ([7], [1])) [[0]] [[7]] := by
  have hg : gaussNLL 7 1 7 = Real.log (2 * Real.pi) / 2 := by
    unfold gaussNLL
    rw [Real.log_one]
    norm_num
  have hrow : diagGaussNLL [7] [1] [7] = Real.log (2 * Real.pi) / 2 := by
    unfold diagGaussNLL
    simp [List.zipWith3, hg]
  have hmat : dynamicsNllMatrix 2 (fun _ _ => ([7], [1])) [[0]] [[7]] =
      [[Real.log (2 * Real.pi) / 2], [Real.log (2 * Real.pi) / 2]] := by
    unfold dynamicsNllMatrix expandEnsembleDim
    norm_num [List.range_succ, List.zipWith3, hrow]
  have hsum : sumAxis0 (min ([[(0 : ℝ)]].length) ([[(7 : ℝ)]].length))
      (dynamicsNllMatrix 2 (fun _ _ => ([7], [1])) [[0]] [[7]]) =
      [Real.log (2 * Real.pi)] := by
    rw [hmat]
    unfold sumAxis0
    norm_num
  have hpos : 0 < Real.log (2 * Real.pi) := by
    apply Real.log_pos
    nlinarith [Real.pi_gt_three]
  unfold dynamicsTrainLoss specDynamicsLoss
  rw [hsum]
  unfold meanR
  norm_num
  intro heq
  nlinarith [heq, hpos]

/-- C6 amended: the quantity minimized by one training step of the Ensemble
Dynamics Model is the NLL summed over output dimensions AND over the
ensemble axis, averaged only over the batch axis (the scalar reported to the
logger is this loss divided by `num_ensembles` and `obs_dim`, after
`minimize` ran); and all K ensemble members do receive the identical
minibatch: the tiled inputs and targets of every member `k < K` equal the
original minibatch. -/
theorem train_loss_sums_over_ensemble (K : ℕ)
    (params : ℕ → List ℝ → List ℝ × List ℝ) (xs ys : List (List ℝ))
    (hlen : xs.length = ys.length) :
    dynamicsTrainLoss K params xs ys =
      ((List.range K).map (fun i =>
        (List.zipWith (fun x y => diagGaussNLL (params i x).1 (params i x).2 y)
          xs ys).sum)).sum / xs.length ∧
    ∀ i < K, (List.replicate K xs).getD i [] = xs ∧
      (expandEnsembleDim K ys).getD i [] = ys := by
  constructor
  · unfold dynamicsTrainLoss dynamicsNllMatrix expandEnsembleDim meanR
    rw [zipWith3_range_replicate]
    have hrows : ∀ r ∈ (List.range K).map (fun i => List.zipWith (fun x y =>
        diagGaussNLL (params i x).1 (params i x).2 y) xs ys),
        r.length = min xs.length ys.length := by
      intro r hr
      simp only [List.mem_map] at hr
      obtain ⟨i, _, rfl⟩ := hr
      exact List.length_zipWith _ _ _
    rw [sum_sumAxis0 _ _ hrows, length_sumAxis0 _ _ hrows, List.map_map]
    rw [hlen, min_self]
    rfl
  · intro i hi
    exact ⟨getD_replicate_of_lt xs [] K i hi, getD_replicate_of_lt ys [] K i hi⟩

/-- Witness for C6's amended theorem at the concrete two-member instance. -/
theorem train_loss_sums_over_ensemble_witness :
    ([[(0 : ℝ)]] : List (List ℝ)).length = ([[(7 : ℝ)]] : List (List ℝ)).length ∧
    (dynamicsTrainLoss 2 (fun _ _ => ([7], [1])) [[0]] [[7]] =
        ((List.range 2).map (fun i =>
          (List.zipWith (fun x y => diagGaussNLL
            ((fun (_ : ℕ) (_ : List ℝ) => ([(7 : ℝ)], [(1 : ℝ)])) i x).1
            ((fun (_ : ℕ) (_ : List ℝ) => ([(7 : ℝ)], [(1 : ℝ)])) i x).2 y)
            [[(0 : ℝ)]] [[(7 : ℝ)]]).sum)).sum / ([[(0 : ℝ)]] : List (List ℝ)).length ∧
      ∀ i < 2, (List.replicate 2 ([[(0 : ℝ)]] : List (List ℝ))).getD i [] = [[(0 : ℝ)]] ∧
        (expandEnsembleDim 2 ([[(7 : ℝ)]] : List (List ℝ))).getD i [] = [[(7 : ℝ)]]) :=
  ⟨rfl, train_loss_sums_over_ensemble 2 (fun _ _ => ([7], [1])) [[0]] [[7]] rfl⟩

end Rlutils
